import Mathlib

/-!
Shallow embedding of the rate-limiter decision engine of
`offerni/rate-limiter` (Go), and proofs about it.

Modelling conventions:
* Timestamps are integer nanoseconds (`Int`), matching Go `time.Time`
  precision.  `time.Since(t).Seconds() >= 1.0` is `now - t ≥ 10^9` and
  `time.Since(b).Seconds() < float64(blockTime)` is
  `now - b < blockTime * 10^9`: near these boundaries the nanosecond
  counts involved are exactly representable in `float64`, so the exact
  integer comparisons coincide with the Go ones.
* Go's zero `time.Time` (`BlockedAt.IsZero()`) is modelled by `Option`:
  `none` is the zero value.
* Go maps (`map[string]int`, `map[string]*RateLimit`) are modelled as
  functions `String → Option _`; map insertion is pointwise update.
* `CheckRateLimit` in `src/middleware/service.go` always returns a `nil`
  error, so its embedding returns just the decision and the new state.
-/

/-- Nanoseconds per second: the fixed 1-second window in `time.Time` units. -/
def nsPerSec : Int := 1000000000

/-- Structure `RateLimit` from `src/middleware/service.go`:
`Count int`, `LastReset time.Time`, `BlockedAt time.Time`
(zero `BlockedAt` modelled as `none`). -/
structure RateLimit where
  count : Int
  lastReset : Int
  blockedAt : Option Int
  deriving DecidableEq, Repr

/-- Structure `Config` from `src/middleware/service.go` (rate-limit fields; maps as
lookup functions). -/
structure Config where
  ipRateLimit : Int
  ipBlockTime : Int
  tokenLimits : String → Option Int
  tokenBlockTimes : String → Option Int
  serverPort : String

/-- Structure `Service` from `src/middleware/service.go`: config plus the per-key
record map (`map[string]*RateLimit`). -/
structure Service where
  config : Config
  rateLimits : String → Option RateLimit

/-- Map insertion/in-place mutation: after the call the map holds `r` at
`key` and is unchanged elsewhere. -/
def updateStore (m : String → Option RateLimit) (key : String)
    (r : RateLimit) : String → Option RateLimit :=
  fun k => if k = key then some r else m k

/-- Function `isBlocked` from `src/middleware/service.go` lines 157-162:
zero `BlockedAt` means not blocked, otherwise blocked while
`time.Since(BlockedAt).Seconds() < float64(blockTime)`. -/
def Service.isBlocked (now : Int) (rateLimit : RateLimit)
    (blockTime : Int) : Bool :=
  match rateLimit.blockedAt with
  | none => false
  | some b => now - b < blockTime * nsPerSec

/-- Function `shouldResetWindow` from `src/middleware/service.go` lines 164-166:
`time.Since(LastReset).Seconds() >= 1.0`. -/
def Service.shouldResetWindow (now : Int) (rateLimit : RateLimit) : Bool :=
  nsPerSec ≤ now - rateLimit.lastReset

/-- Translation of `strings.Split(key, ":")` as called by `getLimit`/`getBlockTime`:
Go string split at every occurrence of the single-character separator
`":"` (the only separator used in the source), by structural recursion
over the character list. -/
def splitOnColonAux : List Char → List Char → List (List Char)
  | [], acc => [acc.reverse]
  | c :: cs, acc =>
    if c = ':' then acc.reverse :: splitOnColonAux cs []
    else splitOnColonAux cs (c :: acc)

/-- Translation of `strings.Split(s, ":")` returning Lean strings. -/
def splitOnColon (s : String) : List String :=
  (splitOnColonAux s.data []).map (fun l => { data := l })

/-- Function `getLimit` from `src/middleware/service.go` lines 168-179: token keys
split on `:`; exactly two segments and a hit in `TokenLimits` gives the
override, otherwise the IP default. -/
def Service.getLimit (cfg : Config) (key : String) (isToken : Bool) : Int :=
  if isToken then
    match splitOnColon key with
    | [_, tokenName] =>
      match cfg.tokenLimits tokenName with
      | some limit => limit
      | none => cfg.ipRateLimit
    | _ => cfg.ipRateLimit
  else
    cfg.ipRateLimit

/-- Function `getBlockTime` from `src/middleware/service.go` lines 181-192: same
shape as `getLimit` but over `TokenBlockTimes` / `IPBlockTime`. -/
def Service.getBlockTime (cfg : Config) (key : String) (isToken : Bool) : Int :=
  if isToken then
    match splitOnColon key with
    | [_, tokenName] =>
      match cfg.tokenBlockTimes tokenName with
      | some blockTime => blockTime
      | none => cfg.ipBlockTime
    | _ => cfg.ipBlockTime
  else
    cfg.ipBlockTime

/-- Function `CheckRateLimit` from `src/middleware/service.go` lines 121-155.
The Go function mutates the record in place and returns `(bool, error)`
with the error always `nil`; the embedding returns the decision and the
service whose map holds the final record. -/
def Service.CheckRateLimit (s : Service) (key : String) (isToken : Bool)
    (now : Int) : Bool × Service :=
  let rateLimit :=
    match s.rateLimits key with
    | some r => r
    | none => { count := 0, lastReset := now, blockedAt := none }
  let limit := Service.getLimit s.config key isToken
  let blockTime := Service.getBlockTime s.config key isToken
  let rateLimit :=
    if Service.shouldResetWindow now rateLimit then
      { count := 0, lastReset := now, blockedAt := (none : Option Int) }
    else rateLimit
  if Service.isBlocked now rateLimit blockTime then
    (false, { s with rateLimits := updateStore s.rateLimits key rateLimit })
  else if limit ≤ rateLimit.count then
    (false, { s with rateLimits := updateStore s.rateLimits key { rateLimit with blockedAt := some now } })
  else
    (true, { s with rateLimits := updateStore s.rateLimits key { rateLimit with count := rateLimit.count + 1 } })

/-- The service with record `r` written back at `key` (the net effect of
the Go code's in-place record mutation on the map). -/
def Service.withRecord (s : Service) (key : String) (r : RateLimit) : Service :=
  { s with rateLimits := updateStore s.rateLimits key r }

/-- The ordered decision procedure exactly as the specification words it
(§4.1 steps 1-6 plus the half-open tie-breaks): fetch-or-init, then reset
when `now - windowStart ≥ 1s`, then blocked when `blockedAt` present and
`now - blockedAt < blockDuration`, then capacity `count ≥ limit` setting
`blockedAt := now`, else increment.  Written from the spec's words, to be
compared with `Service.CheckRateLimit` (written from the source). -/
def specDecision (cfg : Config) (key : String) (isToken : Bool) (now : Int)
    (stored : Option RateLimit) : Bool × RateLimit :=
  let r0 := stored.getD { count := 0, lastReset := now, blockedAt := none }
  let limit := Service.getLimit cfg key isToken
  let blockDuration := Service.getBlockTime cfg key isToken
  let r1 := if nsPerSec ≤ now - r0.lastReset then
      ({ count := 0, lastReset := now, blockedAt := none } : RateLimit)
    else r0
  let blocked : Bool :=
    match r1.blockedAt with
    | none => false
    | some b => now - b < blockDuration * nsPerSec
  if blocked then
    (false, r1)
  else if limit ≤ r1.count then
    (false, { r1 with blockedAt := some now })
  else
    (true, { r1 with count := r1.count + 1 })

/-- Outcome of the Redis client `Get` call in `src/storage/redis.go`:
a payload string, the distinguished `redis.Nil` miss, or another error. -/
inductive RedisReply where
  | found (data : String)
  | missing
  | failed (e : String)
  deriving DecidableEq, Repr

/-- Function `Get` of `RedisStorage` from `src/storage/redis.go` lines 37-52.  The JSON
decoder (`json.Unmarshal`, external library) is a parameter.  Result models
`(*RateLimit, error)`: `Except.ok none` is `(nil, nil)` (absent record,
no error), `Except.error _` a non-nil error. -/
def RedisStorage.Get (reply : RedisReply)
    (unmarshal : String → Except String RateLimit) :
    Except String (Option RateLimit) :=
  match reply with
  | .found data =>
    match unmarshal data with
    | .error e => .error ("failed to unmarshal rate limit: " ++ e)
    | .ok rateLimit => .ok (some rateLimit)
  | .missing => .ok none
  | .failed e => .error ("failed to get from Redis: " ++ e)

/-- Modelled from the spec: the storage-backed `checkRateLimit` engine
(the external-store variant of the Service) is not among the source files;
only its Redis backend (`src/storage/redis.go`) and its construction site
are.  Following §4.1/§7: read the record (a failing read is returned
verbatim with `allowed=false`), apply reset/block/capacity exactly as in
the in-memory engine, persist through `set` (a failing write is returned
verbatim with `allowed=false`); the denial-by-block path performs no
write.  `get` is the storage read's result, `set` the storage write. -/
def checkRateLimitStored (cfg : Config) (key : String) (isToken : Bool)
    (now : Int) (get : Except String (Option RateLimit))
    (set : RateLimit → Except String Unit) : Bool × Option String :=
  match get with
  | .error e => (false, some e)
  | .ok stored =>
    let r0 := stored.getD { count := 0, lastReset := now, blockedAt := none }
    let limit := Service.getLimit cfg key isToken
    let blockDuration := Service.getBlockTime cfg key isToken
    let r1 := if nsPerSec ≤ now - r0.lastReset then
        ({ count := 0, lastReset := now, blockedAt := none } : RateLimit)
      else r0
    let blocked : Bool :=
      match r1.blockedAt with
      | none => false
      | some b => now - b < blockDuration * nsPerSec
    if blocked then
      (false, none)
    else if limit ≤ r1.count then
      match set { r1 with blockedAt := some now } with
      | .error e => (false, some e)
      | .ok _ => (false, none)
    else
      match set { r1 with count := r1.count + 1 } with
      | .error e => (false, some e)
      | .ok _ => (true, none)

/-- The reset-adjusted record of `checkRateLimitStored`: the fetched (or
fresh) record after the window-reset step, i.e. the record whose block /
capacity analysis decides the call and from which the persisted record is
derived. -/
def resetAdjust (now : Int) (stored : Option RateLimit) : RateLimit :=
  let r0 := stored.getD { count := 0, lastReset := now, blockedAt := none }
  if nsPerSec ≤ now - r0.lastReset then
    { count := 0, lastReset := now, blockedAt := none }
  else r0

/-- Run `CheckRateLimit` once per timestamp in the list, threading the
service state; returns the list of decisions and the final state. -/
def runCalls (key : String) (isToken : Bool) :
    List Int → Service → List Bool × Service
  | [], s => ([], s)
  | t :: ts, s =>
    let p := Service.CheckRateLimit s key isToken t
    let q := runCalls key isToken ts p.2
    (p.1 :: q.1, q.2)

/-- A convenient concrete configuration for witnesses: IP limit 2,
block 300 s, one token override `ABC123 ↦ (5, 60)` for limits only on
`XYZ` (block-time only on `DEF`). -/
def wCfg : Config where
  ipRateLimit := 2
  ipBlockTime := 300
  tokenLimits := fun t => if t = "ABC123" then some 5
    else if t = "XYZ" then some 50 else none
  tokenBlockTimes := fun t => if t = "ABC123" then some 60
    else if t = "DEF" then some 7 else none
  serverPort := "8080"

/-- Witness service: `wCfg` with an empty record map. -/
def wSvc : Service where
  config := wCfg
  rateLimits := fun _ => none

/-- Witness service holding a blocked record for `"1.2.3.4"`:
count 2, window started at t=0, blocked at t=0. -/
def wSvcBlocked : Service where
  config := wCfg
  rateLimits := fun k =>
    if k = "1.2.3.4" then
      some { count := 2, lastReset := 0, blockedAt := some 0 }
    else none

/-- Witness service holding a record at capacity for `"1.2.3.4"`:
count 2 (= the IP limit of `wCfg`), window started at t=0, not blocked. -/
def wSvcAtCap : Service where
  config := wCfg
  rateLimits := fun k =>
    if k = "1.2.3.4" then
      some { count := 2, lastReset := 0, blockedAt := none }
    else none

example :
    (Service.CheckRateLimit wSvc "1.2.3.4" false 0).1 = true := by rfl

/-- C6: policy resolution is a pure function of key, isToken and config:
a token key splitting into exactly two segments whose second segment hits
the override map uses the override; an unknown token or a split of any
other arity falls back to the IP default with no error; a non-token key
always uses the IP default. -/
theorem policy_resolution (cfg : Config) (key : String) :
    (Service.getLimit cfg key false = cfg.ipRateLimit ∧
     Service.getBlockTime cfg key false = cfg.ipBlockTime) ∧
    (∀ pre name v, splitOnColon key = [pre, name] →
      cfg.tokenLimits name = some v → Service.getLimit cfg key true = v) ∧
    (∀ pre name v, splitOnColon key = [pre, name] →
      cfg.tokenBlockTimes name = some v →
      Service.getBlockTime cfg key true = v) ∧
    (∀ pre name, splitOnColon key = [pre, name] →
      cfg.tokenLimits name = none →
      Service.getLimit cfg key true = cfg.ipRateLimit) ∧
    (∀ pre name, splitOnColon key = [pre, name] →
      cfg.tokenBlockTimes name = none →
      Service.getBlockTime cfg key true = cfg.ipBlockTime) ∧
    ((splitOnColon key).length ≠ 2 →
      Service.getLimit cfg key true = cfg.ipRateLimit ∧
      Service.getBlockTime cfg key true = cfg.ipBlockTime) := by
  unfold Service.getLimit Service.getBlockTime
  refine ⟨⟨by simp, by simp⟩, ?_, ?_, ?_, ?_, ?_⟩ <;>
    rcases hsp : splitOnColon key with _ | ⟨a, _ | ⟨b, _ | ⟨c, l⟩⟩⟩ <;>
    simp_all

/-- C6 witness: concrete instances of each case at `wCfg`. -/
theorem policy_resolution_witness :
    Service.getLimit wCfg "token:ABC123" true = 5 ∧
    Service.getBlockTime wCfg "token:ABC123" true = 60 ∧
    Service.getLimit wCfg "token:NOBODY" true = 2 ∧
    Service.getLimit wCfg "token:extra:ABC123" true = 2 ∧
    Service.getLimit wCfg "5.6.7.8" false = 2 := by
  refine ⟨?_, ?_, ?_, ?_, ?_⟩
  · exact (policy_resolution wCfg "token:ABC123").2.1 "token" "ABC123" 5
      (by decide) (by decide)
  · exact (policy_resolution wCfg "token:ABC123").2.2.1 "token" "ABC123" 60
      (by decide) (by decide)
  · exact (policy_resolution wCfg "token:NOBODY").2.2.2.1 "token" "NOBODY"
      (by decide) (by decide)
  · exact ((policy_resolution wCfg "token:extra:ABC123").2.2.2.2.2
      (by decide)).1
  · exact (policy_resolution wCfg "5.6.7.8").1.1

/-- C9: the limit override and the block-time override resolve
independently: a token present only in the limit map gets the limit
override together with the IP-default block time, and symmetrically. -/
theorem override_independence (cfg : Config) (key pre name : String)
    (hsp : splitOnColon key = [pre, name]) :
    (∀ v, cfg.tokenLimits name = some v → cfg.tokenBlockTimes name = none →
      Service.getLimit cfg key true = v ∧
      Service.getBlockTime cfg key true = cfg.ipBlockTime) ∧
    (∀ v, cfg.tokenBlockTimes name = some v → cfg.tokenLimits name = none →
      Service.getBlockTime cfg key true = v ∧
      Service.getLimit cfg key true = cfg.ipRateLimit) := by
  unfold Service.getLimit Service.getBlockTime
  constructor <;> intro v hSome hNone <;> rw [hsp] <;> simp [hSome, hNone]

/-- C9 witness: in `wCfg`, token `XYZ` has only a limit override
(50, block time falls back to 300) and token `DEF` has only a block-time
override (7, limit falls back to 2). -/
theorem override_independence_witness :
    (Service.getLimit wCfg "token:XYZ" true = 50 ∧
     Service.getBlockTime wCfg "token:XYZ" true = 300) ∧
    (Service.getBlockTime wCfg "token:DEF" true = 7 ∧
     Service.getLimit wCfg "token:DEF" true = 2) := by
  refine ⟨?_, ?_⟩
  · exact (override_independence wCfg "token:XYZ" "token" "XYZ"
      (by decide)).1 50 (by decide) (by decide)
  · exact (override_independence wCfg "token:DEF" "token" "DEF"
      (by decide)).2 7 (by decide) (by decide)

/-- C10: the Redis `Get`: a missing key (`redis.Nil`) yields an absent
record with no error; a client failure or an unmarshal failure yields a
non-nil error wrapping the underlying one. -/
theorem redisGet_absent_vs_error :
    (∀ u, RedisStorage.Get RedisReply.missing u = Except.ok none) ∧
    (∀ e u, RedisStorage.Get (RedisReply.failed e) u =
      Except.error ("failed to get from Redis: " ++ e)) ∧
    (∀ d u e, u d = Except.error e →
      RedisStorage.Get (RedisReply.found d) u =
        Except.error ("failed to unmarshal rate limit: " ++ e)) := by
  refine ⟨fun u => rfl, fun e u => rfl, fun d u e hu => ?_⟩
  simp only [RedisStorage.Get, hu]

/-- C10 witness: concrete miss, connectivity failure and unmarshal
failure. -/
theorem redisGet_absent_vs_error_witness :
    RedisStorage.Get RedisReply.missing (fun _ => Except.error "bad") =
      Except.ok none ∧
    RedisStorage.Get (RedisReply.failed "conn refused")
        (fun _ => Except.error "bad") =
      Except.error ("failed to get from Redis: " ++ "conn refused") ∧
    RedisStorage.Get (RedisReply.found "not json")
        (fun _ => Except.error "bad") =
      Except.error ("failed to unmarshal rate limit: " ++ "bad") := by
  refine ⟨redisGet_absent_vs_error.1 _, redisGet_absent_vs_error.2.1 _ _,
    redisGet_absent_vs_error.2.2 "not json" _ "bad" rfl⟩

/-- Helper: on a successful read, the storage-backed engine is the
block / capacity / admit analysis of the reset-adjusted record, with the
result of the one write it performs threaded through (the
denial-by-block path performs no write). -/
theorem checkRateLimitStored_ok (cfg : Config) (key : String)
    (isToken : Bool) (now : Int) (stored : Option RateLimit)
    (set : RateLimit → Except String Unit) :
    checkRateLimitStored cfg key isToken now (Except.ok stored) set =
      if Service.isBlocked now (resetAdjust now stored)
          (Service.getBlockTime cfg key isToken) then
        (false, none)
      else if Service.getLimit cfg key isToken ≤
          (resetAdjust now stored).count then
        match set { resetAdjust now stored with blockedAt := some now } with
        | .error e => (false, some e)
        | .ok _ => (false, none)
      else
        match set { resetAdjust now stored with count := (resetAdjust now stored).count + 1 } with
        | .error e => (false, some e)
        | .ok _ => (true, none) := by
  unfold checkRateLimitStored resetAdjust Service.isBlocked
  rfl

/-- C4: the storage-backed engine is fail-closed and never swallows a
storage failure: a failing read is returned verbatim with
`allowed=false`; any error the engine returns is a verbatim storage
error accompanied by `allowed=false`; and on a successful read, if the
single write the engine performs fails — the block-marked record on the
capacity path, the incremented record on the admit path (the
denial-by-block path writes nothing) — that failure too is returned
verbatim with `allowed=false`. -/
theorem storage_error_fail_closed (cfg : Config) (key : String)
    (isToken : Bool) (now : Int) (get : Except String (Option RateLimit))
    (set : RateLimit → Except String Unit) :
    (∀ e, get = Except.error e →
      checkRateLimitStored cfg key isToken now get set = (false, some e)) ∧
    (∀ e, (checkRateLimitStored cfg key isToken now get set).2 = some e →
      (checkRateLimitStored cfg key isToken now get set).1 = false ∧
      (get = Except.error e ∨ ∃ r, set r = Except.error e)) ∧
    (∀ e stored, get = Except.ok stored →
      Service.isBlocked now (resetAdjust now stored)
        (Service.getBlockTime cfg key isToken) = false →
      ((Service.getLimit cfg key isToken ≤ (resetAdjust now stored).count →
        set { resetAdjust now stored with blockedAt := some now } =
          Except.error e →
        checkRateLimitStored cfg key isToken now get set =
          (false, some e)) ∧
       ((resetAdjust now stored).count < Service.getLimit cfg key isToken →
        set { resetAdjust now stored with count := (resetAdjust now stored).count + 1 } =
          Except.error e →
        checkRateLimitStored cfg key isToken now get set =
          (false, some e)))) := by
  refine ⟨?_, ?_, ?_⟩
  · intro e hget
    rw [hget]
    rfl
  · intro e
    unfold checkRateLimitStored
    cases get with
    | error e0 => intro h; simp_all
    | ok stored =>
      simp only
      repeat' split
      all_goals intro h
      all_goals simp at h
      all_goals rename_i e1 hset
      all_goals subst h
      all_goals exact ⟨rfl, Or.inr ⟨_, hset⟩⟩
  · intro e stored hget hnb
    subst hget
    rw [checkRateLimitStored_ok]
    rw [if_neg (by simp [hnb])]
    constructor
    · intro hcap hset
      rw [if_pos hcap, hset]
    · intro hcnt hset
      rw [if_neg (not_le.mpr hcnt), hset]

/-- C4 witness: at `wCfg`, a concrete failing read is propagated
verbatim with a denial, and so is a concrete failing write on the admit
path of a fresh key. -/
theorem storage_error_fail_closed_witness :
    checkRateLimitStored wCfg "1.2.3.4" false 0
      (Except.error "redis down") (fun _ => Except.ok ()) =
      (false, some "redis down") ∧
    checkRateLimitStored wCfg "1.2.3.4" false 0
      (Except.ok none) (fun _ => Except.error "write failed") =
      (false, some "write failed") :=
  ⟨(storage_error_fail_closed wCfg "1.2.3.4" false 0
      (Except.error "redis down") (fun _ => Except.ok ())).1 "redis down" rfl,
   ((storage_error_fail_closed wCfg "1.2.3.4" false 0
      (Except.ok none) (fun _ => Except.error "write failed")).2.2
      "write failed" none rfl (by decide)).2 (by decide) rfl⟩


/-- Helper: the in-memory engine equals the spec-ordered decision applied
to the stored record, with the decided record written back at `key`.
Shared by the claim proofs below. -/
theorem checkRateLimit_eq (s : Service) (key : String) (isToken : Bool)
    (now : Int) :
    s.CheckRateLimit key isToken now =
      ((specDecision s.config key isToken now (s.rateLimits key)).1,
       s.withRecord key
         (specDecision s.config key isToken now (s.rateLimits key)).2) := by
  unfold Service.CheckRateLimit specDecision Service.withRecord
    Service.isBlocked Service.shouldResetWindow
  cases hrec : s.rateLimits key <;>
    simp only [hrec, Option.getD, decide_eq_true_eq] <;>
    split_ifs <;> rfl

/-- Helper: the spec decision on an absent record admits and stores
`count=1`, window starting `now`, not blocked, when the limit is ≥ 1. -/
theorem specDecision_fresh (cfg : Config) (key : String) (isToken : Bool)
    (now : Int) (hL : 1 ≤ Service.getLimit cfg key isToken) :
    specDecision cfg key isToken now none =
      (true, { count := 1, lastReset := now, blockedAt := none }) := by
  have h1 : ¬ nsPerSec ≤ now - now := by simp [nsPerSec]
  have h2 : ¬ Service.getLimit cfg key isToken ≤ (0 : Int) := by omega
  simp [specDecision, h1, h2]

/-- Helper: within the window, under the limit, not blocked: admit and
increment. -/
theorem specDecision_increment (cfg : Config) (key : String) (isToken : Bool)
    (now c t0 : Int) (hwin : now - t0 < nsPerSec)
    (hcnt : c < Service.getLimit cfg key isToken) :
    specDecision cfg key isToken now
        (some { count := c, lastReset := t0, blockedAt := none }) =
      (true, { count := c + 1, lastReset := t0, blockedAt := none }) := by
  have h1 : ¬ nsPerSec ≤ now - t0 := by omega
  have h2 : ¬ Service.getLimit cfg key isToken ≤ c := by omega
  simp [specDecision, h1, h2]

/-- Helper: within the window, at capacity, not blocked: deny and set the
block mark to `now`. -/
theorem specDecision_capacity (cfg : Config) (key : String) (isToken : Bool)
    (now c t0 : Int) (hwin : now - t0 < nsPerSec)
    (hcnt : Service.getLimit cfg key isToken ≤ c) :
    specDecision cfg key isToken now
        (some { count := c, lastReset := t0, blockedAt := none }) =
      (false, { count := c, lastReset := t0, blockedAt := some now }) := by
  have h1 : ¬ nsPerSec ≤ now - t0 := by omega
  simp [specDecision, h1, hcnt]

/-- Helper: a denial of the spec decision always leaves a block mark. -/
theorem specDecision_false_mark (cfg : Config) (key : String)
    (isToken : Bool) (now : Int) (stored : Option RateLimit)
    (h : (specDecision cfg key isToken now stored).1 = false) :
    (specDecision cfg key isToken now stored).2.blockedAt ≠ none := by
  rcases stored with _ | r
  · simp only [specDecision, Option.getD] at h ⊢
    split_ifs at h ⊢ <;> simp_all
  · simp only [specDecision, Option.getD] at h ⊢
    rcases hb : r.blockedAt with _ | b <;>
      split_ifs at h ⊢ <;>
      simp_all

/-- C1: the decision is computed in the spec's exact order — reset check
(`now - LastReset ≥ 1s`, equality resets), then block check
(`now - BlockedAt < blockDuration`, equality unblocks), then capacity
check — and the source's `CheckRateLimit` coincides with that ordered
procedure (`specDecision`, written from the spec's words) on every state,
including both half-open boundaries. -/
theorem decision_order_and_boundaries (s : Service) (key : String)
    (isToken : Bool) (now : Int) :
    s.CheckRateLimit key isToken now =
      ((specDecision s.config key isToken now (s.rateLimits key)).1,
       s.withRecord key
         (specDecision s.config key isToken now (s.rateLimits key)).2) ∧
    (∀ r, Service.shouldResetWindow now r = true ↔
      nsPerSec ≤ now - r.lastReset) ∧
    (∀ r b bt, r.blockedAt = some b →
      (Service.isBlocked now r bt = true ↔ now - b < bt * nsPerSec)) := by
  refine ⟨checkRateLimit_eq s key isToken now, fun r => by
    simp [Service.shouldResetWindow], fun r b bt hb => by
    simp [Service.isBlocked, hb]⟩

/-- C1 witness: both boundaries at concrete inputs — at exactly one
window length the reset fires, at exactly the block duration the block is
over. -/
theorem decision_order_and_boundaries_witness :
    Service.shouldResetWindow nsPerSec
      { count := 0, lastReset := 0, blockedAt := none } = true ∧
    Service.isBlocked (7 * nsPerSec)
      { count := 2, lastReset := 0, blockedAt := some 0 } 7 = false := by
  constructor
  · exact ((decision_order_and_boundaries wSvc "k" false nsPerSec).2.1
      { count := 0, lastReset := 0, blockedAt := none }).mpr (by decide)
  · have h := (decision_order_and_boundaries wSvc "k" false
      (7 * nsPerSec)).2.2 { count := 2, lastReset := 0, blockedAt := some 0 }
      0 7 rfl
    have hnot : ¬ (7 * nsPerSec - 0 < 7 * nsPerSec) := by decide
    simpa using fun hb => hnot (h.mp hb)

/-- C7: the first call on a key absent from storage admits (when the
resolved limit is ≥ 1) and leaves a record with `count=1`, window
starting at the call time, and no block mark. -/
theorem first_call_admits (s : Service) (key : String) (isToken : Bool)
    (now : Int) (habs : s.rateLimits key = none)
    (hL : 1 ≤ Service.getLimit s.config key isToken) :
    (s.CheckRateLimit key isToken now).1 = true ∧
    (s.CheckRateLimit key isToken now).2.rateLimits key =
      some { count := 1, lastReset := now, blockedAt := none } := by
  rw [checkRateLimit_eq, habs, specDecision_fresh s.config key isToken now hL]
  exact ⟨rfl, by simp [Service.withRecord, updateStore]⟩

/-- C7 witness: the first call for a fresh IP key at `wSvc`. -/
theorem first_call_admits_witness :
    (Service.CheckRateLimit wSvc "1.2.3.4" false 0).1 = true ∧
    (Service.CheckRateLimit wSvc "1.2.3.4" false 0).2.rateLimits "1.2.3.4" =
      some { count := 1, lastReset := 0, blockedAt := none } :=
  first_call_admits wSvc "1.2.3.4" false 0 rfl (by decide)

/-- C5: a denial by the block check (block mark present, block duration
not yet over, no window reset) returns `false` and leaves the record —
count, window start and block mark — exactly as it was, and the whole
map unchanged. -/
theorem blocked_denial_frame (s : Service) (key : String) (isToken : Bool)
    (now c w b : Int)
    (hrec : s.rateLimits key =
      some { count := c, lastReset := w, blockedAt := some b })
    (hnoreset : now - w < nsPerSec)
    (hblk : now - b < Service.getBlockTime s.config key isToken * nsPerSec) :
    (s.CheckRateLimit key isToken now).1 = false ∧
    (s.CheckRateLimit key isToken now).2.rateLimits key =
      some { count := c, lastReset := w, blockedAt := some b } ∧
    ∀ k, (s.CheckRateLimit key isToken now).2.rateLimits k =
      s.rateLimits k := by
  have h1 : ¬ nsPerSec ≤ now - w := by omega
  have hdec : specDecision s.config key isToken now (s.rateLimits key) =
      (false, { count := c, lastReset := w, blockedAt := some b }) := by
    rw [hrec]
    simp [specDecision, h1, hblk]
  rw [checkRateLimit_eq, hdec]
  refine ⟨rfl, by simp [Service.withRecord, updateStore], fun k => ?_⟩
  by_cases hk : k = key
  · subst hk
    simp [Service.withRecord, updateStore, hrec]
  · simp [Service.withRecord, updateStore, hk]

/-- C5 witness: a call half a second into a fresh block at `wSvcBlocked`
is denied and changes nothing. -/
theorem blocked_denial_frame_witness :
    (Service.CheckRateLimit wSvcBlocked "1.2.3.4" false 500000000).1 = false ∧
    (Service.CheckRateLimit wSvcBlocked "1.2.3.4" false
        500000000).2.rateLimits "1.2.3.4" =
      some { count := 2, lastReset := 0, blockedAt := some 0 } ∧
    ∀ k, (Service.CheckRateLimit wSvcBlocked "1.2.3.4" false
        500000000).2.rateLimits k = wSvcBlocked.rateLimits k :=
  blocked_denial_frame wSvcBlocked "1.2.3.4" false 500000000 2 0 0
    (by decide) (by decide) (by decide)

/-- C3: a blocked record whose window is ≥ 1 second old at the next call
is reset — the block mark is cleared regardless of the remaining block
duration — and the call admits (limit ≥ 1), leaving `count=1` and a
window starting at the call time. -/
theorem window_reset_overrides_block (s : Service) (key : String)
    (isToken : Bool) (now c w b : Int)
    (hrec : s.rateLimits key =
      some { count := c, lastReset := w, blockedAt := some b })
    (hreset : nsPerSec ≤ now - w)
    (hL : 1 ≤ Service.getLimit s.config key isToken) :
    (s.CheckRateLimit key isToken now).1 = true ∧
    (s.CheckRateLimit key isToken now).2.rateLimits key =
      some { count := 1, lastReset := now, blockedAt := none } := by
  have h2 : ¬ Service.getLimit s.config key isToken ≤ (0 : Int) := by omega
  have hdec : specDecision s.config key isToken now (s.rateLimits key) =
      (true, { count := 1, lastReset := now, blockedAt := none }) := by
    rw [hrec]
    simp [specDecision, hreset, h2]
  rw [checkRateLimit_eq, hdec]
  exact ⟨rfl, by simp [Service.withRecord, updateStore]⟩

/-- C3 witness: a key blocked 0.1 s into its window with 300 s of block
duration left is admitted exactly at the 1-second window boundary. -/
theorem window_reset_overrides_block_witness :
    (Service.CheckRateLimit wSvcBlocked "1.2.3.4" false nsPerSec).1 = true ∧
    (Service.CheckRateLimit wSvcBlocked "1.2.3.4" false
        nsPerSec).2.rateLimits "1.2.3.4" =
      some { count := 1, lastReset := nsPerSec, blockedAt := none } :=
  window_reset_overrides_block wSvcBlocked "1.2.3.4" false nsPerSec 2 0 0
    (by decide) (by decide) (by decide)

/-- C8: whenever `CheckRateLimit` denies (its error being always nil),
the record stored for the key at return carries a block mark, for every
key, token flag and prior state. -/
theorem denial_implies_block_mark (s : Service) (key : String)
    (isToken : Bool) (now : Int)
    (hden : (s.CheckRateLimit key isToken now).1 = false) :
    ∃ r, (s.CheckRateLimit key isToken now).2.rateLimits key = some r ∧
      r.blockedAt ≠ none := by
  rw [checkRateLimit_eq] at hden ⊢
  exact ⟨(specDecision s.config key isToken now (s.rateLimits key)).2,
    by simp [Service.withRecord, updateStore],
    specDecision_false_mark s.config key isToken now (s.rateLimits key) hden⟩

/-- C8 witness: a key at capacity in `wSvcAtCap` is denied and the stored
record carries a block mark. -/
theorem denial_implies_block_mark_witness :
    ∃ r, (Service.CheckRateLimit wSvcAtCap "1.2.3.4" false
        0).2.rateLimits "1.2.3.4" = some r ∧ r.blockedAt ≠ none :=
  denial_implies_block_mark wSvcAtCap "1.2.3.4" false 0 (by decide)

/-- Helper: starting from a clean record `⟨c, t0, none⟩`, a sequence of
calls all within the window of `t0` and fitting under the limit is fully
admitted and just counts up. -/
theorem runCalls_under_limit (key : String) (isToken : Bool) (t0 : Int)
    (ts : List Int) :
    ∀ (s : Service) (c : Int),
      s.rateLimits key =
        some { count := c, lastReset := t0, blockedAt := none } →
      (∀ t ∈ ts, t - t0 < nsPerSec) →
      c + ts.length ≤ Service.getLimit s.config key isToken →
      (runCalls key isToken ts s).1 = List.replicate ts.length true ∧
      (runCalls key isToken ts s).2.config = s.config ∧
      (runCalls key isToken ts s).2.rateLimits key =
        some { count := c + ts.length, lastReset := t0,
               blockedAt := none } := by
  induction ts with
  | nil =>
    intro s c hrec _ _
    exact ⟨rfl, rfl, by simpa using hrec⟩
  | cons t ts ih =>
    intro s c hrec hts hcap
    have hdec : specDecision s.config key isToken t (s.rateLimits key) =
        (true, { count := c + 1, lastReset := t0, blockedAt := none }) := by
      rw [hrec]
      exact specDecision_increment s.config key isToken t c t0
        (hts t (by simp))
        (by simp only [List.length_cons] at hcap; push_cast at hcap; omega)
    have hstep : s.CheckRateLimit key isToken t =
        (true, s.withRecord key
          { count := c + 1, lastReset := t0, blockedAt := none }) := by
      rw [checkRateLimit_eq, hdec]
    have hrec' : (s.withRecord key
        { count := c + 1, lastReset := t0, blockedAt := none }).rateLimits
          key =
        some { count := c + 1, lastReset := t0, blockedAt := none } := by
      simp [Service.withRecord, updateStore]
    have hcfg : (s.withRecord key
        { count := c + 1, lastReset := t0, blockedAt := none }).config =
        s.config := rfl
    have := ih (s.withRecord key
        { count := c + 1, lastReset := t0, blockedAt := none }) (c + 1)
      hrec' (fun u hu => hts u (by simp [hu]))
      (by
        rw [hcfg]
        simp only [List.length_cons] at hcap
        push_cast at hcap ⊢
        omega)
    simp only [runCalls, hstep]
    refine ⟨by rw [this.1]; simp [List.replicate_succ], this.2.1, ?_⟩
    rw [this.2.2]
    congr 1
    simp only [List.length_cons]
    push_cast
    ring_nf

/-- C2: with resolved limit `L ≥ 1`, a key never seen before that is
called `L` times inside one window (first call at `t0` opening the
window, every later call strictly less than 1 s after `t0`, so no reset
occurs between calls) is admitted every time, and an `(L+1)`-th call
still inside that window is denied. -/
theorem exactly_limit_calls_admitted (s : Service) (key : String)
    (isToken : Bool) (L : Nat) (t0 tlast : Int) (ts : List Int)
    (hL : 1 ≤ L)
    (hlim : Service.getLimit s.config key isToken = (L : Int))
    (habs : s.rateLimits key = none)
    (hlen : ts.length + 1 = L)
    (hts : ∀ t ∈ ts, t - t0 < nsPerSec)
    (hlast : tlast - t0 < nsPerSec) :
    (runCalls key isToken (t0 :: ts) s).1 = List.replicate L true ∧
    ((runCalls key isToken (t0 :: ts) s).2.CheckRateLimit key isToken
      tlast).1 = false := by
  have hL1 : 1 ≤ Service.getLimit s.config key isToken := by
    rw [hlim]
    exact_mod_cast hL
  have hdec0 : specDecision s.config key isToken t0 (s.rateLimits key) =
      (true, { count := 1, lastReset := t0, blockedAt := none }) := by
    rw [habs]
    exact specDecision_fresh s.config key isToken t0 hL1
  have hstep0 : s.CheckRateLimit key isToken t0 =
      (true, s.withRecord key
        { count := 1, lastReset := t0, blockedAt := none }) := by
    rw [checkRateLimit_eq, hdec0]
  have hrec1 : (s.withRecord key
      { count := 1, lastReset := t0, blockedAt := none }).rateLimits key =
      some { count := 1, lastReset := t0, blockedAt := none } := by
    simp [Service.withRecord, updateStore]
  have hrest := runCalls_under_limit key isToken t0 ts
    (s.withRecord key { count := 1, lastReset := t0, blockedAt := none })
    1 hrec1 hts (by
      show (1 : Int) + ts.length ≤ Service.getLimit _ key isToken
      rw [show (s.withRecord key
        { count := 1, lastReset := t0, blockedAt := none }).config =
          s.config from rfl, hlim]
      omega)
  have hfinalrec : (runCalls key isToken ts
      (s.withRecord key
        { count := 1, lastReset := t0, blockedAt := none })).2.rateLimits
        key =
      some { count := (L : Int), lastReset := t0, blockedAt := none } := by
    rw [hrest.2.2]
    congr 2
    omega
  have hfinalcfg : (runCalls key isToken ts
      (s.withRecord key
        { count := 1, lastReset := t0, blockedAt := none })).2.config =
      s.config := hrest.2.1
  constructor
  · simp only [runCalls, hstep0]
    simp [hrest.1, hlen.symm, List.replicate_succ]
  · simp only [runCalls, hstep0]
    rw [checkRateLimit_eq]
    have hdecL : specDecision
        ((runCalls key isToken ts (s.withRecord key
          { count := 1, lastReset := t0, blockedAt := none })).2.config)
        key isToken tlast
        ((runCalls key isToken ts (s.withRecord key
          { count := 1, lastReset := t0, blockedAt := none })).2.rateLimits
          key) =
        (false, { count := (L : Int), lastReset := t0,
                  blockedAt := some tlast }) := by
      rw [hfinalrec, hfinalcfg]
      exact specDecision_capacity s.config key isToken tlast (L : Int) t0
        hlast (le_of_eq hlim)
    rw [hdecL]

/-- C2 witness: limit 2 at `wSvc`: two calls inside one window are both
admitted and a third call in the same window is denied. -/
theorem exactly_limit_calls_admitted_witness :
    (runCalls "1.2.3.4" false [0, 5] wSvc).1 = List.replicate 2 true ∧
    ((runCalls "1.2.3.4" false [0, 5] wSvc).2.CheckRateLimit "1.2.3.4"
      false 9).1 = false :=
  exactly_limit_calls_admitted wSvc "1.2.3.4" false 2 0 9 [5]
    (by decide) (by decide) rfl (by decide) (by decide) (by decide)
